import Mathlib

/-!
# Verification of binboh (`src/src/main.rs`)

binboh is a command wrapper that memoizes a command run, keyed on the blake3
fingerprint of (working directory, declared input paths, declared output
paths, command vector).  This file is a shallow embedding of the core of
`src/src/main.rs` — the content hasher `Args::hash_file`, the decision engine
`Args::needs_to_run`, the invocation fingerprint `Args::hash`, and the
control flow of `main` — together with proofs about the embedded code.

Modelling conventions:
* Rust `HashMap<String, String>` values are association lists
  `List (String × String)`; `hmGet` is ordinary lookup, and the panicking
  Rust index operation `map[key]` is modelled by propagating `Option.none`
  ("panicked") through the computation.
* The blake3 digest itself is an external cryptographic primitive; it is a
  parameter `bl : List Nat → List Nat` (bytes to a 32-byte digest).  Its only
  documented property used here is that the digest is 32 bytes long, taken as
  an explicit hypothesis where needed.  `hexEncode` is the hex encoding the
  code obtains with `to_hex`.
* The filesystem is a function from path to `FileAccess`, distinguishing the
  outcomes the Rust code distinguishes: open fails with `NotFound`, open
  fails otherwise, `read_to_end` fails, or the full content is returned.
-/

/-- Outcome of `fs::File::open` + `read_to_end` on one path, as the Rust code
distinguishes them: `notFound` is `ErrorKind::NotFound` on open, `openFail`
any other open error, `readFail` an error from `read_to_end`, and
`content bs` a successful read of the raw bytes `bs`. -/
inductive FileAccess : Type
  | notFound : FileAccess
  | openFail : FileAccess
  | readFail : FileAccess
  | content : List Nat → FileAccess
deriving DecidableEq, Repr

/-- A filesystem: what accessing each path yields. -/
abbrev FS : Type := String → FileAccess

/-- The persisted cache record (Rust struct `Hashes`): a map from input path
to hash string and a map from output path to hash string. -/
structure Hashes : Type where
  inputs : List (String × String)
  outputs : List (String × String)
deriving DecidableEq, Repr

/-- The parsed command line (Rust struct `Args`). -/
structure Args : Type where
  inputs : List String
  outputs : List String
  verbose : Bool
  command : List String
deriving DecidableEq, Repr

/-- Lookup in an association list modelling `HashMap<String, String>`:
`some v` when the key is present, `none` when absent (where the Rust index
operation `map[key]` would panic). -/
def hmGet (m : List (String × String)) (k : String) : Option String :=
  (m.find? (fun kv => kv.1 = k)).map (fun kv => kv.2)

/-- The fallback string passed for missing files at both call sites of
`hash_file` in `main.rs`: the absent-file sentinel. -/
def doesnotexist : String := "doesnotexist"

/-- One hex digit, lower case, as produced by blake3's `to_hex`. -/
def hexDigit (n : Nat) : Char :=
  if n = 0 then '0' else if n = 1 then '1' else if n = 2 then '2'
  else if n = 3 then '3' else if n = 4 then '4' else if n = 5 then '5'
  else if n = 6 then '6' else if n = 7 then '7' else if n = 8 then '8'
  else if n = 9 then '9' else if n = 10 then 'a' else if n = 11 then 'b'
  else if n = 12 then 'c' else if n = 13 then 'd' else if n = 14 then 'e'
  else 'f'

/-- Hex encoding of a byte list, two hex characters per byte (`to_hex`). -/
def hexEncode (bs : List Nat) : String :=
  String.mk (bs.flatMap (fun b => [hexDigit (b / 16), hexDigit (b % 16)]))

/-- Embedding of `Args::hash_file` (main.rs lines 117–143).  Opens the file;
on `NotFound` returns the fallback when one was given and fails otherwise;
on any other open or read failure fails (`bail!` / `with_context`); otherwise
returns the hex-encoded blake3 digest of the raw bytes.  `bl` is the blake3
digest function. -/
def hash_file (bl : List Nat → List Nat) (fs : FS) (file_path : String)
    (fallback : Option String) : Except String String :=
  match fs file_path with
  | .notFound =>
      match fallback with
      | some f => .ok f
      | none => .error ("File does not exist: " ++ file_path)
  | .openFail => .error ("Failed to open file for hashing " ++ file_path)
  | .readFail => .error ("Failed to read file " ++ file_path)
  | .content bs => .ok (hexEncode (bl bs))

/-- The input-file loop of `Args::needs_to_run` (main.rs lines 90–96).
Walks the declared input paths; `input_hashes[f] != prev.inputs[f]` is a
mismatch returning `true`; a missing key in either map is a Rust `HashMap`
index panic, modelled as `none`; reaching the end yields `some false`
(no input mismatch). -/
def inputsLoop (input_hashes prevInputs : List (String × String)) :
    List String → Option Bool
  | [] => some false
  | f :: rest =>
      match hmGet input_hashes f, hmGet prevInputs f with
      | some cur, some prev =>
          if cur ≠ prev then some true
          else inputsLoop input_hashes prevInputs rest
      | _, _ => none

/-- The output-file loop of `Args::needs_to_run` (main.rs lines 97–103).
Rehashes each declared output with the `doesnotexist` fallback; `.unwrap()`
on a hashing error is a panic (`none`), as is a missing key in the stored
output map; a hash differing from the stored one returns `true`. -/
def outputsLoop (bl : List Nat → List Nat) (fs : FS)
    (prevOutputs : List (String × String)) : List String → Option Bool
  | [] => some false
  | f :: rest =>
      match hash_file bl fs f (some doesnotexist) with
      | .error _ => none
      | .ok cur =>
          match hmGet prevOutputs f with
          | none => none
          | some prev =>
              if cur ≠ prev then some true
              else outputsLoop bl fs prevOutputs rest

/-- Embedding of `Args::needs_to_run` (main.rs lines 88–109).  `some true`
means "must run", `some false` means "skip", `none` means the Rust code
panicked (HashMap index on a missing key, or `.unwrap()` on a hashing
error). -/
def needs_to_run (bl : List Nat → List Nat) (fs : FS) (a : Args)
    (input_hashes : List (String × String)) (previous_run : Option Hashes) :
    Option Bool :=
  match previous_run with
  | none => some true
  | some prev =>
      match inputsLoop input_hashes prev.inputs a.inputs with
      | none => none
      | some true => some true
      | some false => outputsLoop bl fs prev.outputs a.outputs

/-- The input-hash collection of `main` (main.rs line 172):
`call.inputs.iter().map(|f| call.hash_file(f, Some("doesnotexist")).map(|h| (f, h))).collect::<Result<HashMap<_,_>>>()`.
The first hashing error aborts the collection (the `?` in `main` then makes
it a fatal error). -/
def collectHashes (bl : List Nat → List Nat) (fs : FS) :
    List String → Except String (List (String × String))
  | [] => .ok []
  | f :: rest =>
      match hash_file bl fs f (some doesnotexist) with
      | .error e => .error e
      | .ok h =>
          match collectHashes bl fs rest with
          | .error e => .error e
          | .ok t => .ok ((f, h) :: t)

/-- The freshly recomputed state of an output path as `needs_to_run` sees
it: the `hash_file` result with the absent-file fallback, `none` when the
hashing fails (where the Rust code's `.unwrap()` panics). -/
def outState (bl : List Nat → List Nat) (fs : FS) (p : String) :
    Option String :=
  (hash_file bl fs p (some doesnotexist)).toOption

/-- True for the accesses on which `hash_file` reports a fatal error even
with a fallback: an open failure other than not-found, or a read failure. -/
def ioFailure : FileAccess → Bool
  | .openFail => true
  | .readFail => true
  | _ => false

/-!
## The invocation fingerprint (`Args::hash`, main.rs lines 62–86)

`Args::hash` builds an `IndexMap` with the four entries `pwd` (a one-element
vector holding the working directory), `inputs`, `outputs` and `command`, in
that insertion order, renders it with the `Debug` format `"[:?]"`, and feeds
the resulting text to blake3.  The functions below reproduce that `Debug`
rendering character by character.  Rust's `Debug` for `str` escapes the
quote and the backslash and renders control characters with escape
sequences; `escChar` covers the escapes relevant to the common control
characters and leaves other printable characters unchanged (Rust renders
remaining non-printable characters as `\u` sequences, which are likewise
injective, so the injectivity proved below is the same as for the full
rendering). -/

/-- Rust `Debug` escaping of one character inside a `str` literal. -/
def escChar (c : Char) : List Char :=
  if c = '"' then ['\\', '"']
  else if c = '\\' then ['\\', '\\']
  else if c = '\n' then ['\\', 'n']
  else if c = '\r' then ['\\', 'r']
  else if c = '\t' then ['\\', 't']
  else [c]

/-- Rust `Debug` escaping of a string body (character list). -/
def escapeL : List Char → List Char
  | [] => []
  | c :: cs => escChar c ++ escapeL cs

/-- Decoder counterpart of `escChar`: which character a `Debug` escape
sequence `\\d` denotes.  Used only to prove that the escaping, and with it
the whole canonical encoding, is injective. -/
def decodeEsc (d : Char) : Option Char :=
  if d = '"' then some '"'
  else if d = '\\' then some '\\'
  else if d = 'n' then some '\n'
  else if d = 'r' then some '\r'
  else if d = 't' then some '\t'
  else none

/-- Decoder counterpart of `escapeL`: reads an escaped string body up to its
closing unescaped quote and returns the decoded body and the remainder after
the quote. -/
def unescape : List Char → Option (List Char × List Char)
  | [] => none
  | c :: rest =>
      if c = '"' then some ([], rest)
      else if c = '\\' then
        match rest with
        | [] => none
        | d :: rest2 =>
            match decodeEsc d with
            | none => none
            | some c2 => (unescape rest2).map (fun p => (c2 :: p.1, p.2))
      else (unescape rest).map (fun p => (c :: p.1, p.2))

/-- The comma-separated quoted items of a `Vec<String>` `Debug` rendering:
each item is `"` body `"`, items joined by `, `. -/
def encItems : List (List Char) → List Char
  | [] => []
  | [x] => '"' :: (escapeL x ++ ['"'])
  | x :: y :: rest => '"' :: (escapeL x ++ '"' :: ',' :: ' ' :: encItems (y :: rest))

/-- `Debug` rendering of a `Vec<String>`: `[` items `]`. -/
def encListL (xs : List (List Char)) : List Char :=
  '[' :: (encItems xs ++ [']'])

/-- The full `Debug` rendering of the `IndexMap` built in `Args::hash`:
`\x7b"pwd": [dir], "inputs": [..], "outputs": [..], "command": [..]\x7d`.
This is the exact byte text fed to the blake3 hasher. -/
def encodeInvocationL (pwd : List Char) (ins outs cmd : List (List Char)) :
    List Char :=
  ("\x7b\"pwd\": ").data ++ encListL [pwd]
    ++ (", \"inputs\": ").data ++ encListL ins
    ++ (", \"outputs\": ").data ++ encListL outs
    ++ (", \"command\": ").data ++ encListL cmd ++ ("\x7d").data

/-- String-level canonical encoding of an invocation, as fed to blake3 by
`Args::hash`. -/
def encodeInvocation (pwd : String) (ins outs cmd : List String) : String :=
  String.mk (encodeInvocationL pwd.data (ins.map String.data)
    (outs.map String.data) (cmd.map String.data))

/-- Embedding of `Args::hash` (main.rs lines 62–86): the hex blake3 digest
of the canonical encoding.  `blStr` abstracts `hex ∘ blake3 ∘ utf8`. -/
def args_hash (blStr : String → String) (pwd : String) (a : Args) : String :=
  blStr (encodeInvocation pwd a.inputs a.outputs a.command)

/-!
## The control flow of `main` (main.rs lines 146–202)

`main` is modelled as a pure function of a `World` that fixes every external
interaction: the parsed arguments, the working directory, the cache
directory lookup, the two blake3 abstractions, the filesystem before and
after the wrapped command runs, the contents of the cache directory, the
serde-json parse of a cache file, and the wrapped command's exit status. -/

/-- State of the cache entry file as `main` can observe it: absent
(`cache_file.exists()` false), unreadable (exists but `File::open` fails,
which the `?` turns into a fatal error), or present with contents. -/
inductive CacheFile : Type
  | absent : CacheFile
  | unreadable : CacheFile
  | present : String → CacheFile
deriving DecidableEq, Repr

/-- Termination status of the wrapped command: normal exit with a code, or
killed by a signal (where Rust's `status.code()` is `None`). -/
inductive ChildStatus : Type
  | exited : Nat → ChildStatus
  | signaled : ChildStatus
deriving DecidableEq, Repr

/-- Rust `ExitStatus::success()`: true exactly for exit code 0. -/
def statusSuccess : ChildStatus → Bool
  | .exited 0 => true
  | _ => false

/-- Rust `ExitStatus::code()`: the exit code, or `none` after a signal. -/
def statusCode : ChildStatus → Option Nat
  | .exited c => some c
  | .signaled => none

/-- All external facts one execution of `main` can observe.
`cacheWritable` is false when creating the shard directories or writing the
entry file would fail (`create_dir_all` / `File::create` /
`serde_json::to_writer`), which `main` turns into a fatal error after the
command already ran. -/
structure World : Type where
  args : Args
  pwd : String
  cacheDir : Option String
  blBytes : List Nat → List Nat
  blStr : String → String
  fs : FS
  fsAfter : FS
  cacheFs : String → CacheFile
  parse : String → Option Hashes
  child : Option ChildStatus
  cacheWritable : Bool

/-- The sharded cache entry path (main.rs lines 157–160):
`<cache-dir>/binboh/<h[0..2]>/<h[2..4]>/<h>.json`. -/
def cache_path (cacheDir h : String) : String :=
  cacheDir ++ "/binboh/" ++ h.take 2 ++ "/" ++ (h.drop 2).take 2 ++ "/"
    ++ h ++ ".json"

/-- The cache entry path of a world's invocation. -/
def cacheFilePath (w : World) : String :=
  cache_path (w.cacheDir.getD "") (args_hash w.blStr w.pwd w.args)

/-- Embedding of the cache load (main.rs lines 162–170): absent file gives
`none`; an existing file that cannot be opened is a fatal error (the `?` on
`File::open`); a readable file is parsed with serde-json and a parse failure
is turned into `none` by `.ok()`. -/
def load_previous_run (w : World) (cache_file : String) :
    Except String (Option Hashes) :=
  match w.cacheFs cache_file with
  | .absent => .ok none
  | .unreadable => .error ("Failed to open hash file " ++ cache_file)
  | .present contents => .ok (w.parse contents)

/-- How one execution of `main` ends. -/
inductive MainResult : Type
  | fatal : String → MainResult
  | panicked : MainResult
  | skipped : MainResult
  | exitedWith : Nat → MainResult
  | ranAndSaved : MainResult
deriving DecidableEq, Repr

/-- Embedding of `main` (main.rs lines 146–202).  Returns how the run ended
together with the cache entry written, `none` when nothing was saved.
`fatal` is an `anyhow` error propagating out of `main` (exit code 1);
`panicked` is a Rust panic inside `needs_to_run`; `skipped` prints the
`Skipped:` line and exits 0; `exitedWith c` is `exit(code.unwrap_or(1))`
after a failed child; `ranAndSaved` is a successful run followed by the
snapshot write. -/
def runMain (w : World) : MainResult × Option Hashes :=
  if w.args.command = [] then (.fatal "No command specified", none)
  else
    match w.cacheDir with
    | none => (.fatal "Could not find the user's cache directory.", none)
    | some cdir =>
        let cache_file := cache_path cdir (args_hash w.blStr w.pwd w.args)
        match load_previous_run w cache_file with
        | .error e => (.fatal e, none)
        | .ok previous_run =>
            match collectHashes w.blBytes w.fs w.args.inputs with
            | .error e => (.fatal e, none)
            | .ok input_hashes =>
                match needs_to_run w.blBytes w.fs w.args input_hashes
                    previous_run with
                | none => (.panicked, none)
                | some false => (.skipped, none)
                | some true =>
                    match w.child with
                    | none =>
                        (.fatal ("Failed to run command "
                          ++ String.intercalate " " w.args.command), none)
                    | some st =>
                        if statusSuccess st then
                          match collectHashes w.blBytes w.fsAfter
                              w.args.outputs with
                          | .error e => (.fatal e, none)
                          | .ok output_hashes =>
                              if w.cacheWritable then
                                (.ranAndSaved,
                                  some ⟨input_hashes, output_hashes⟩)
                              else
                                (.fatal ("Failed to write hashes to file "
                                  ++ cache_path cdir
                                    (args_hash w.blStr w.pwd w.args)), none)
                        else (.exitedWith ((statusCode st).getD 1), none)

/-- The cache directory contents after one execution of `main`: unchanged
unless the run succeeded, in which case the entry file for this invocation
is overwritten with the serialization of the saved snapshot. -/
def finalCacheFs (w : World) (ser : Hashes → String) : String → CacheFile :=
  match runMain w with
  | (.ranAndSaved, some e) =>
      fun p => if p = cacheFilePath w then .present (ser e) else w.cacheFs p
  | _ => w.cacheFs

/-- The world as the next identical invocation finds it when the command was
not run: only the cache directory may have changed. -/
def nextWorld (w : World) (ser : Hashes → String) : World :=
  { w with cacheFs := finalCacheFs w ser }

/-!
## Helper lemmas: injectivity of the canonical encoding

The canonical encoding is shown injective by exhibiting a decoder
(`unescape`) for the escaped string bodies and peeling the fixed separators
of the `Debug` rendering. -/

theorem unescape_cons_quote (r : List Char) :
    unescape ('"' :: r) = some ([], r) := by
  rw [unescape.eq_def]; simp

theorem unescape_cons_esc (d c2 : Char) (r : List Char)
    (hd : decodeEsc d = some c2) :
    unescape ('\\' :: d :: r) = (unescape r).map (fun p => (c2 :: p.1, p.2)) := by
  rw [unescape.eq_def]; simp [hd]

theorem unescape_cons_plain (c : Char) (r : List Char) (h1 : c ≠ '"')
    (h2 : c ≠ '\\') :
    unescape (c :: r) = (unescape r).map (fun p => (c :: p.1, p.2)) := by
  rw [unescape.eq_def]; simp [h1, h2]

theorem escChar_spec (c : Char) :
    (∃ d, escChar c = ['\\', d] ∧ decodeEsc d = some c) ∨
    (c ≠ '"' ∧ c ≠ '\\' ∧ escChar c = [c]) := by
  by_cases h1 : c = '"'
  · subst h1; exact Or.inl ⟨'"', by decide, by decide⟩
  by_cases h2 : c = '\\'
  · subst h2; exact Or.inl ⟨'\\', by decide, by decide⟩
  by_cases h3 : c = '\n'
  · subst h3; exact Or.inl ⟨'n', by decide, by decide⟩
  by_cases h4 : c = '\r'
  · subst h4; exact Or.inl ⟨'r', by decide, by decide⟩
  by_cases h5 : c = '\t'
  · subst h5; exact Or.inl ⟨'t', by decide, by decide⟩
  exact Or.inr ⟨h1, h2, by simp [escChar, h1, h2, h3, h4, h5]⟩

theorem unescape_escapeL (s r : List Char) :
    unescape (escapeL s ++ '"' :: r) = some (s, r) := by
  induction s with
  | nil => simpa [escapeL] using unescape_cons_quote r
  | cons c cs ih =>
      rcases escChar_spec c with ⟨d, hesc, hd⟩ | ⟨h1, h2, hesc⟩
      · simp only [escapeL, hesc, List.cons_append, List.append_assoc,
          List.nil_append]
        rw [unescape_cons_esc d c _ hd, ih]
        rfl
      · simp only [escapeL, hesc, List.cons_append, List.append_assoc,
          List.nil_append]
        rw [unescape_cons_plain c _ h1 h2, ih]
        rfl

theorem escapeL_peel (s1 s2 r1 r2 : List Char)
    (h : escapeL s1 ++ '"' :: r1 = escapeL s2 ++ '"' :: r2) :
    s1 = s2 ∧ r1 = r2 := by
  have h1 := unescape_escapeL s1 r1
  rw [h, unescape_escapeL] at h1
  have h2 := Option.some.inj h1
  exact ⟨(congrArg Prod.fst h2).symm, (congrArg Prod.snd h2).symm⟩

theorem encItems_peel (xs : List (List Char)) :
    ∀ ys r1 r2, encItems xs ++ ']' :: r1 = encItems ys ++ ']' :: r2 →
      xs = ys ∧ r1 = r2 := by
  induction xs with
  | nil =>
      intro ys r1 r2 h
      cases ys with
      | nil => simpa [encItems] using h
      | cons y ys' =>
          exfalso
          cases ys' <;>
            · simp only [encItems, List.cons_append, List.append_assoc,
                List.singleton_append, List.nil_append] at h
              injection h with hh _
              exact absurd hh (by decide)
  | cons x xs' ih =>
      intro ys r1 r2 h
      cases ys with
      | nil =>
          exfalso
          cases xs' <;>
            · simp only [encItems, List.cons_append, List.append_assoc,
                List.singleton_append, List.nil_append] at h
              injection h with hh _
              exact absurd hh (by decide)
      | cons y ys' =>
          cases xs' with
          | nil =>
              cases ys' with
              | nil =>
                  simp only [encItems, List.cons_append, List.append_assoc,
                    List.singleton_append, List.nil_append] at h
                  injection h with _ h2
                  obtain ⟨hx, ht⟩ := escapeL_peel _ _ _ _ h2
                  injection ht with _ hr
                  exact ⟨by rw [hx], hr⟩
              | cons z2 t2 =>
                  exfalso
                  simp only [encItems, List.cons_append, List.append_assoc,
                    List.singleton_append, List.nil_append] at h
                  injection h with _ h2
                  obtain ⟨hx, ht⟩ := escapeL_peel _ _ _ _ h2
                  injection ht with hh _
                  exact absurd hh (by decide)
          | cons z t =>
              cases ys' with
              | nil =>
                  exfalso
                  simp only [encItems, List.cons_append, List.append_assoc,
                    List.singleton_append, List.nil_append] at h
                  injection h with _ h2
                  obtain ⟨hx, ht⟩ := escapeL_peel _ _ _ _ h2
                  injection ht with hh _
                  exact absurd hh (by decide)
              | cons z2 t2 =>
                  simp only [encItems, List.cons_append, List.append_assoc,
                    List.singleton_append, List.nil_append] at h
                  injection h with _ h2
                  obtain ⟨hx, ht⟩ := escapeL_peel _ _ _ _ h2
                  injection ht with _ ht2
                  injection ht2 with _ ht3
                  obtain ⟨hrest, hr⟩ := ih (z2 :: t2) r1 r2 ht3
                  exact ⟨by rw [hx, hrest], hr⟩

theorem encListL_peel (xs ys : List (List Char)) (r1 r2 : List Char)
    (h : encListL xs ++ r1 = encListL ys ++ r2) :
    xs = ys ∧ r1 = r2 := by
  simp only [encListL, List.cons_append, List.append_assoc] at h
  injection h with _ h2
  exact encItems_peel xs ys r1 r2 h2

theorem encodeInvocationL_inj (p1 p2 : List Char)
    (i1 o1 c1 i2 o2 c2 : List (List Char))
    (h : encodeInvocationL p1 i1 o1 c1 = encodeInvocationL p2 i2 o2 c2) :
    p1 = p2 ∧ i1 = i2 ∧ o1 = o2 ∧ c1 = c2 := by
  unfold encodeInvocationL at h
  simp only [List.append_assoc] at h
  have h1 := List.append_cancel_left h
  obtain ⟨hp, h2⟩ := encListL_peel _ _ _ _ h1
  have h3 := List.append_cancel_left h2
  obtain ⟨hi, h4⟩ := encListL_peel _ _ _ _ h3
  have h5 := List.append_cancel_left h4
  obtain ⟨ho, h6⟩ := encListL_peel _ _ _ _ h5
  have h7 := List.append_cancel_left h6
  obtain ⟨hc, -⟩ := encListL_peel _ _ _ _ h7
  refine ⟨?_, hi, ho, hc⟩
  injection hp

theorem strData_inj : Function.Injective String.data := by
  intro a b hab
  cases a; cases b
  exact congrArg String.mk hab

theorem encodeInvocation_inj (pwd1 pwd2 : String)
    (i1 o1 c1 i2 o2 c2 : List String) :
    encodeInvocation pwd1 i1 o1 c1 = encodeInvocation pwd2 i2 o2 c2 ↔
      (pwd1 = pwd2 ∧ i1 = i2 ∧ o1 = o2 ∧ c1 = c2) := by
  constructor
  · intro h
    have hdata := congrArg String.data h
    obtain ⟨hp, hi, ho, hc⟩ := encodeInvocationL_inj _ _ _ _ _ _ _ _ hdata
    have hmap := List.map_injective_iff.mpr strData_inj
    exact ⟨strData_inj hp, hmap hi, hmap ho, hmap hc⟩
  · rintro ⟨rfl, rfl, rfl, rfl⟩
    rfl

/-!
## Helper lemmas: the decision loops -/

theorem outState_ok (bl : List Nat → List Nat) (fs : FS) (p : String)
    (cur : String) (h : hash_file bl fs p (some doesnotexist) = .ok cur) :
    outState bl fs p = some cur := by
  unfold outState; rw [h]; rfl

theorem outState_isSome_iff (bl : List Nat → List Nat) (fs : FS) (p : String) :
    (outState bl fs p).isSome ↔
      ∃ cur, hash_file bl fs p (some doesnotexist) = .ok cur := by
  unfold outState
  cases h : hash_file bl fs p (some doesnotexist) <;> simp [Except.toOption]

theorem inputsLoop_true_iff (ih pin : List (String × String))
    (l : List String)
    (hdef : ∀ p ∈ l, (hmGet ih p).isSome ∧ (hmGet pin p).isSome) :
    inputsLoop ih pin l = some true ↔
      ∃ p ∈ l, hmGet ih p ≠ hmGet pin p := by
  induction l with
  | nil => simp [inputsLoop]
  | cons f rest irec =>
      obtain ⟨h1, h2⟩ := hdef f (List.mem_cons_self f rest)
      obtain ⟨cur, hc⟩ := Option.isSome_iff_exists.mp h1
      obtain ⟨pv, hp⟩ := Option.isSome_iff_exists.mp h2
      have irec2 := irec (fun p hp2 => hdef p (List.mem_cons_of_mem f hp2))
      simp only [inputsLoop]
      rw [hc, hp]
      by_cases hne : cur = pv
      · subst hne
        simp only [ne_eq, not_true_eq_false, if_neg, ite_false]
        rw [irec2]
        constructor
        · rintro ⟨p, hmem, hmm⟩
          exact ⟨p, List.mem_cons_of_mem f hmem, hmm⟩
        · rintro ⟨p, hmem, hmm⟩
          rcases List.mem_cons.mp hmem with rfl | hmem2
          · exact absurd (hc.trans hp.symm) hmm
          · exact ⟨p, hmem2, hmm⟩
      · simp only [ne_eq, hne, not_false_eq_true, if_pos, ite_true, true_iff]
        exact ⟨f, List.mem_cons_self f rest, by rw [hc, hp]; simpa using hne⟩

theorem inputsLoop_false_iff (ih pin : List (String × String))
    (l : List String)
    (hdef : ∀ p ∈ l, (hmGet ih p).isSome ∧ (hmGet pin p).isSome) :
    inputsLoop ih pin l = some false ↔
      ∀ p ∈ l, hmGet ih p = hmGet pin p := by
  induction l with
  | nil => simp [inputsLoop]
  | cons f rest irec =>
      obtain ⟨h1, h2⟩ := hdef f (List.mem_cons_self f rest)
      obtain ⟨cur, hc⟩ := Option.isSome_iff_exists.mp h1
      obtain ⟨pv, hp⟩ := Option.isSome_iff_exists.mp h2
      have irec2 := irec (fun p hp2 => hdef p (List.mem_cons_of_mem f hp2))
      simp only [inputsLoop]
      rw [hc, hp]
      by_cases hne : cur = pv
      · subst hne
        simp only [ne_eq, not_true_eq_false, if_neg, ite_false]
        rw [irec2]
        constructor
        · intro hall p hmem
          rcases List.mem_cons.mp hmem with rfl | hmem2
          · rw [hc, hp]
          · exact hall p hmem2
        · intro hall p hmem
          exact hall p (List.mem_cons_of_mem f hmem)
      · simp only [ne_eq, hne, not_false_eq_true, if_pos, ite_true]
        constructor
        · intro hcontra; exact absurd hcontra (by simp)
        · intro hall
          exfalso
          apply hne
          have := hall f (List.mem_cons_self f rest)
          rw [hc, hp] at this
          exact Option.some.inj this

theorem outputsLoop_true_iff (bl : List Nat → List Nat) (fs : FS)
    (pout : List (String × String)) (l : List String)
    (hdef : ∀ p ∈ l, (outState bl fs p).isSome ∧ (hmGet pout p).isSome) :
    outputsLoop bl fs pout l = some true ↔
      ∃ p ∈ l, outState bl fs p ≠ hmGet pout p := by
  induction l with
  | nil => simp [outputsLoop]
  | cons f rest irec =>
      obtain ⟨h1, h2⟩ := hdef f (List.mem_cons_self f rest)
      obtain ⟨cur, hc⟩ := (outState_isSome_iff bl fs f).mp h1
      obtain ⟨pv, hp⟩ := Option.isSome_iff_exists.mp h2
      have hos := outState_ok bl fs f cur hc
      have irec2 := irec (fun p hp2 => hdef p (List.mem_cons_of_mem f hp2))
      simp only [outputsLoop]
      rw [hc, hp]
      by_cases hne : cur = pv
      · subst hne
        simp only [ne_eq, not_true_eq_false, if_neg, ite_false]
        rw [irec2]
        constructor
        · rintro ⟨p, hmem, hmm⟩
          exact ⟨p, List.mem_cons_of_mem f hmem, hmm⟩
        · rintro ⟨p, hmem, hmm⟩
          rcases List.mem_cons.mp hmem with rfl | hmem2
          · exact absurd (hos.trans hp.symm) hmm
          · exact ⟨p, hmem2, hmm⟩
      · simp only [ne_eq, hne, not_false_eq_true, if_pos, ite_true, true_iff]
        exact ⟨f, List.mem_cons_self f rest, by rw [hos, hp]; simpa using hne⟩

theorem outputsLoop_false_iff (bl : List Nat → List Nat) (fs : FS)
    (pout : List (String × String)) (l : List String)
    (hdef : ∀ p ∈ l, (outState bl fs p).isSome ∧ (hmGet pout p).isSome) :
    outputsLoop bl fs pout l = some false ↔
      ∀ p ∈ l, outState bl fs p = hmGet pout p := by
  induction l with
  | nil => simp [outputsLoop]
  | cons f rest irec =>
      obtain ⟨h1, h2⟩ := hdef f (List.mem_cons_self f rest)
      obtain ⟨cur, hc⟩ := (outState_isSome_iff bl fs f).mp h1
      obtain ⟨pv, hp⟩ := Option.isSome_iff_exists.mp h2
      have hos := outState_ok bl fs f cur hc
      have irec2 := irec (fun p hp2 => hdef p (List.mem_cons_of_mem f hp2))
      simp only [outputsLoop]
      rw [hc, hp]
      by_cases hne : cur = pv
      · subst hne
        simp only [ne_eq, not_true_eq_false, if_neg, ite_false]
        rw [irec2]
        constructor
        · intro hall p hmem
          rcases List.mem_cons.mp hmem with rfl | hmem2
          · rw [hos, hp]
          · exact hall p hmem2
        · intro hall p hmem
          exact hall p (List.mem_cons_of_mem f hmem)
      · simp only [ne_eq, hne, not_false_eq_true, if_pos, ite_true]
        constructor
        · intro hcontra; exact absurd hcontra (by simp)
        · intro hall
          exfalso
          apply hne
          have := hall f (List.mem_cons_self f rest)
          rw [hos, hp] at this
          exact Option.some.inj this

/-!
## Helper lemmas: hex digests, hash collection -/

theorem hexEncodeL_length (bs : List Nat) :
    (bs.flatMap (fun b => [hexDigit (b / 16), hexDigit (b % 16)])).length =
      2 * bs.length := by
  induction bs with
  | nil => rfl
  | cons b rest ih =>
      simp only [List.flatMap_cons, List.length_append, List.length_cons,
        List.length_nil, ih]
      omega

theorem hexEncode_length (bs : List Nat) :
    (hexEncode bs).length = 2 * bs.length :=
  hexEncodeL_length bs

theorem hexEncode_ne_sentinel (bl : List Nat → List Nat)
    (hlen : ∀ bs, (bl bs).length = 32) (content : List Nat) :
    hexEncode (bl content) ≠ doesnotexist := by
  intro h
  have h1 := congrArg String.length h
  rw [hexEncode_length, hlen] at h1
  have h2 : doesnotexist.length = 12 := rfl
  rw [h2] at h1
  omega

theorem collectHashes_keys (bl : List Nat → List Nat) (fs : FS) :
    ∀ (l : List String) (m : List (String × String)),
      collectHashes bl fs l = .ok m → m.map Prod.fst = l := by
  intro l
  induction l with
  | nil =>
      intro m h
      simp only [collectHashes] at h
      rw [← Except.ok.inj h]
      rfl
  | cons f rest ih =>
      intro m h
      cases hh : hash_file bl fs f (some doesnotexist) with
      | error e =>
          simp only [collectHashes, hh] at h
          exact Except.noConfusion h
      | ok hv =>
          simp only [collectHashes, hh] at h
          cases hr : collectHashes bl fs rest with
          | error e =>
              simp only [hr] at h
              exact Except.noConfusion h
          | ok t =>
              simp only [hr] at h
              rw [← Except.ok.inj h]
              simp only [List.map_cons]
              rw [ih t hr]

theorem collectHashes_not_ok (bl : List Nat → List Nat) (fs : FS) :
    ∀ l : List String, (∃ p ∈ l, ioFailure (fs p) = true) →
      ∀ m, collectHashes bl fs l ≠ .ok m := by
  intro l
  induction l with
  | nil => rintro ⟨p, hp, -⟩; simp at hp
  | cons f rest ih =>
      rintro ⟨p, hp, hfail⟩ m h
      rcases List.mem_cons.mp hp with rfl | hp2
      · cases hh : fs p with
        | openFail =>
            simp only [collectHashes, hash_file, hh] at h
            exact Except.noConfusion h
        | readFail =>
            simp only [collectHashes, hash_file, hh] at h
            exact Except.noConfusion h
        | notFound => rw [hh] at hfail; simp [ioFailure] at hfail
        | content bs => rw [hh] at hfail; simp [ioFailure] at hfail
      · cases hh : hash_file bl fs f (some doesnotexist) with
        | error e =>
            simp only [collectHashes, hh] at h
            exact Except.noConfusion h
        | ok hv =>
            simp only [collectHashes, hh] at h
            cases hr : collectHashes bl fs rest with
            | error e =>
                simp only [hr] at h
                exact Except.noConfusion h
            | ok t => exact ih ⟨p, hp2, hfail⟩ t hr

/-!
## Claims -/

/-- C1: the decision engine returns "must run" if and only if there is no
previous cache entry, or some declared input path's current state differs
from the state recorded in the previous entry's input map, or some declared
output path's freshly recomputed state differs from the state recorded in
the previous entry's output map; when a previous entry exists and every
declared input and output state matches, it returns false (skip).  The
hypotheses say that every declared path has a recorded state in the stored
maps and that rehashing the outputs succeeds — the cases in which the Rust
code reaches a comparison at all instead of panicking (see the C2
theorems). -/
theorem C1_needs_to_run_iff (bl : List Nat → List Nat) (fs : FS) (a : Args)
    (ih : List (String × String)) (po : Option Hashes)
    (hin : ∀ prev, po = some prev → ∀ p ∈ a.inputs,
      (hmGet ih p).isSome ∧ (hmGet prev.inputs p).isSome)
    (hout : ∀ prev, po = some prev → ∀ p ∈ a.outputs,
      (outState bl fs p).isSome ∧ (hmGet prev.outputs p).isSome) :
    (needs_to_run bl fs a ih po = some true ↔
      (po = none ∨ ∃ prev, po = some prev ∧
        ((∃ p ∈ a.inputs, hmGet ih p ≠ hmGet prev.inputs p) ∨
          (∃ p ∈ a.outputs, outState bl fs p ≠ hmGet prev.outputs p)))) ∧
    (∀ prev, po = some prev →
      (∀ p ∈ a.inputs, hmGet ih p = hmGet prev.inputs p) →
      (∀ p ∈ a.outputs, outState bl fs p = hmGet prev.outputs p) →
      needs_to_run bl fs a ih po = some false) := by
  cases po with
  | none =>
      constructor
      · simp [needs_to_run]
      · intro prev hprev; exact absurd hprev (by simp)
  | some prev =>
      have hin2 := hin prev rfl
      have hout2 := hout prev rfl
      constructor
      · by_cases hex1 : ∃ p ∈ a.inputs, hmGet ih p ≠ hmGet prev.inputs p
        · have hl1 : inputsLoop ih prev.inputs a.inputs = some true :=
            (inputsLoop_true_iff ih prev.inputs a.inputs hin2).mpr hex1
          simp only [needs_to_run, hl1]
          simp [hex1]
        · have hall1 : ∀ p ∈ a.inputs, hmGet ih p = hmGet prev.inputs p := by
            intro p hp
            by_contra hne
            exact hex1 ⟨p, hp, hne⟩
          have hl1 : inputsLoop ih prev.inputs a.inputs = some false :=
            (inputsLoop_false_iff ih prev.inputs a.inputs hin2).mpr hall1
          by_cases hex2 : ∃ p ∈ a.outputs, outState bl fs p ≠ hmGet prev.outputs p
          · have hl2 : outputsLoop bl fs prev.outputs a.outputs = some true :=
              (outputsLoop_true_iff bl fs prev.outputs a.outputs hout2).mpr hex2
            simp only [needs_to_run, hl1, hl2]
            simp [hex2]
          · have hall2 : ∀ p ∈ a.outputs,
                outState bl fs p = hmGet prev.outputs p := by
              intro p hp
              by_contra hne
              exact hex2 ⟨p, hp, hne⟩
            have hl2 : outputsLoop bl fs prev.outputs a.outputs = some false :=
              (outputsLoop_false_iff bl fs prev.outputs a.outputs hout2).mpr hall2
            simp only [needs_to_run, hl1, hl2]
            constructor
            · intro hcontra; exact absurd hcontra (by simp)
            · rintro (hnone | ⟨prev2, hprev2, hmm⟩)
              · exact absurd hnone (by simp)
              · obtain rfl := Option.some.inj hprev2
                rcases hmm with hmm | hmm
                · exact absurd hmm hex1
                · exact absurd hmm hex2
      · intro prev2 hprev2 hall1 hall2
        obtain rfl := Option.some.inj hprev2
        have hl1 : inputsLoop ih prev.inputs a.inputs = some false :=
          (inputsLoop_false_iff ih prev.inputs a.inputs hin2).mpr hall1
        have hl2 : outputsLoop bl fs prev.outputs a.outputs = some false :=
          (outputsLoop_false_iff bl fs prev.outputs a.outputs hout2).mpr hall2
        simp only [needs_to_run, hl1, hl2]

/-- C1 witness: on a concrete invocation with one input and one output whose
states all match the stored entry, the engine reports skip. -/
theorem C1_needs_to_run_iff_witness :
    needs_to_run (fun _ => []) (fun _ => .notFound)
      ⟨["a"], ["b"], false, ["cmd"]⟩ [("a", "h1")]
      (some ⟨[("a", "h1")], [("b", "doesnotexist")]⟩) = some false :=
  (C1_needs_to_run_iff (fun _ => []) (fun _ => .notFound)
      ⟨["a"], ["b"], false, ["cmd"]⟩ [("a", "h1")]
      (some ⟨[("a", "h1")], [("b", "doesnotexist")]⟩)
      (fun prev h => by obtain rfl := Option.some.inj h; decide)
      (fun prev h => by obtain rfl := Option.some.inj h; decide)).2
    ⟨[("a", "h1")], [("b", "doesnotexist")]⟩ rfl (by decide) (by decide)

/-- C2 counterexample: with one declared input `"a"` and a previous entry
whose stored input map is empty, the Rust code's `prev.inputs["a"]` panics —
the engine's result is the panic value `none`, not the claimed
"must run" (`some true`). -/
theorem C2_counterexample :
    needs_to_run (fun _ => []) (fun _ => .notFound)
      ⟨["a"], [], false, ["t"]⟩ [("a", "h")] (some ⟨[], []⟩) = none ∧
    (none : Option Bool) ≠ some true := by
  exact ⟨by decide, by decide⟩

/-- C2 (amended): when the first declared input path has no recorded state
in the previous entry's stored input map, the decision engine panics at the
`HashMap` index (modelled as `none`) instead of returning "must run". -/
theorem C2_missing_key_panics (bl : List Nat → List Nat) (fs : FS) (a : Args)
    (ih : List (String × String)) (prev : Hashes) (p : String)
    (rest : List String) (h1 : a.inputs = p :: rest)
    (h2 : hmGet prev.inputs p = none) :
    needs_to_run bl fs a ih (some prev) = none := by
  have hloop : inputsLoop ih prev.inputs a.inputs = none := by
    rw [h1]
    simp only [inputsLoop, h2]
    cases hg : hmGet ih p <;> rfl
  simp only [needs_to_run, hloop]

/-- C2 witness: concrete instance of the missing-key panic. -/
theorem C2_missing_key_panics_witness :
    needs_to_run (fun _ => []) (fun _ => .notFound)
      ⟨["a"], [], false, ["t"]⟩ [] (some ⟨[], []⟩) = none :=
  C2_missing_key_panics (fun _ => []) (fun _ => .notFound)
    ⟨["a"], [], false, ["t"]⟩ [] ⟨[], []⟩ "a" [] rfl rfl

/-- C3: the content hasher with the absent-file fallback returns the
`doesnotexist` sentinel exactly when the open fails with not-found; the
sentinel is one fixed value independent of the path (and of the
filesystem); for a readable file it returns the hex-encoded 256-bit digest
of the raw bytes; any other open or read failure is a fatal error, never
the sentinel.  `hlen` is blake3's documented digest width of 32 bytes. -/
theorem C3_hash_file_contract (bl : List Nat → List Nat)
    (hlen : ∀ bs, (bl bs).length = 32) (fs fs2 : FS) (p q : String) :
    (fs p = .notFound →
      hash_file bl fs p (some doesnotexist) = .ok doesnotexist) ∧
    (fs p = .notFound → fs2 q = .notFound →
      hash_file bl fs p (some doesnotexist) =
        hash_file bl fs2 q (some doesnotexist)) ∧
    (∀ bs, fs p = .content bs →
      hash_file bl fs p (some doesnotexist) = .ok (hexEncode (bl bs))) ∧
    (fs p = .openFail →
      hash_file bl fs p (some doesnotexist) =
        .error ("Failed to open file for hashing " ++ p)) ∧
    (fs p = .readFail →
      hash_file bl fs p (some doesnotexist) =
        .error ("Failed to read file " ++ p)) ∧
    (hash_file bl fs p (some doesnotexist) = .ok doesnotexist →
      fs p = .notFound) := by
  refine ⟨?_, ?_, ?_, ?_, ?_, ?_⟩
  · intro h; simp only [hash_file, h]
  · intro h1 h2; simp only [hash_file, h1, h2]
  · intro bs h; simp only [hash_file, h]
  · intro h; simp only [hash_file, h]
  · intro h; simp only [hash_file, h]
  · intro h
    cases hc : fs p with
    | notFound => rfl
    | openFail =>
        simp only [hash_file, hc] at h
        exact Except.noConfusion h
    | readFail =>
        simp only [hash_file, hc] at h
        exact Except.noConfusion h
    | content bs =>
        simp only [hash_file, hc] at h
        exact absurd (Except.ok.inj h) (hexEncode_ne_sentinel bl hlen bs)

/-- C3 witness: concrete evaluations of the content hasher on a missing
file, a second missing file with a different path, a readable file, and a
file failing with a non-not-found error. -/
theorem C3_hash_file_contract_witness :
    hash_file (fun _ => List.replicate 32 0)
      (fun s => if s = "of" then .openFail else .notFound) "nf"
      (some doesnotexist) = .ok doesnotexist ∧
    hash_file (fun _ => List.replicate 32 0)
      (fun s => if s = "of" then .openFail else .notFound) "nf"
      (some doesnotexist) =
      hash_file (fun _ => List.replicate 32 0) (fun _ => .notFound) "other"
        (some doesnotexist) ∧
    hash_file (fun _ => List.replicate 32 0) (fun _ => .content [7]) "c"
      (some doesnotexist) =
      .ok (hexEncode (List.replicate 32 0)) ∧
    hash_file (fun _ => List.replicate 32 0)
      (fun s => if s = "of" then .openFail else .notFound) "of"
      (some doesnotexist) =
      .error ("Failed to open file for hashing " ++ "of") := by
  refine ⟨?_, ?_, ?_, ?_⟩
  · exact (C3_hash_file_contract (fun _ => List.replicate 32 0)
      (fun bs => by simp) (fun s => if s = "of" then .openFail else .notFound)
      (fun _ => .notFound) "nf" "other").1 (by decide)
  · exact (C3_hash_file_contract (fun _ => List.replicate 32 0)
      (fun bs => by simp) (fun s => if s = "of" then .openFail else .notFound)
      (fun _ => .notFound) "nf" "other").2.1 (by decide) rfl
  · exact (C3_hash_file_contract (fun _ => List.replicate 32 0)
      (fun bs => by simp) (fun _ => .content [7])
      (fun _ => .notFound) "c" "q").2.2.1 [7] rfl
  · exact (C3_hash_file_contract (fun _ => List.replicate 32 0)
      (fun bs => by simp) (fun s => if s = "of" then .openFail else .notFound)
      (fun _ => .notFound) "of" "q").2.2.2.1 (by decide)

/-- C5: cache load returns `none` when the entry file for the fingerprint
is absent, and also returns `none` — a cache miss, not a failure — when the
file exists and is readable but its contents do not parse as a valid entry;
for a readable file the load is always `.ok` of the parse result, never an
error. -/
theorem C5_cache_load (w : World) (cf : String) :
    (w.cacheFs cf = .absent → load_previous_run w cf = .ok none) ∧
    (∀ s, w.cacheFs cf = .present s → w.parse s = none →
      load_previous_run w cf = .ok none) ∧
    (∀ s, w.cacheFs cf = .present s →
      load_previous_run w cf = .ok (w.parse s)) := by
  refine ⟨?_, ?_, ?_⟩
  · intro h; simp only [load_previous_run, h]
  · intro s h hp; simp only [load_previous_run, h, hp]
  · intro s h; simp only [load_previous_run, h]

/-- C5 witness: concrete loads from an absent entry file and from a
readable but corrupt (unparseable) one both give `none`. -/
theorem C5_cache_load_witness :
    load_previous_run
      ⟨⟨[], [], false, ["t"]⟩, "", none, (fun _ => []), (fun _ => ""),
        (fun _ => .notFound), (fun _ => .notFound), (fun _ => .absent),
        (fun _ => none), none, true⟩ "x" = .ok none ∧
    load_previous_run
      ⟨⟨[], [], false, ["t"]⟩, "", none, (fun _ => []), (fun _ => ""),
        (fun _ => .notFound), (fun _ => .notFound),
        (fun _ => .present "corrupt"), (fun _ => none), none, true⟩ "x" =
      .ok none := by
  constructor
  · exact (C5_cache_load
      ⟨⟨[], [], false, ["t"]⟩, "", none, (fun _ => []), (fun _ => ""),
        (fun _ => .notFound), (fun _ => .notFound), (fun _ => .absent),
        (fun _ => none), none, true⟩ "x").1 rfl
  · exact (C5_cache_load
      ⟨⟨[], [], false, ["t"]⟩, "", none, (fun _ => []), (fun _ => ""),
        (fun _ => .notFound), (fun _ => .notFound),
        (fun _ => .present "corrupt"), (fun _ => none), none, true⟩ "x").2.1
      "corrupt" rfl rfl

/-- C7: the fingerprint is the digest of the canonical `Debug` encoding of
(working directory, inputs, outputs, command), so it is a deterministic
pure function of those components; and the canonical encoding fed to the
hash is injective — any difference in the working directory, any path, the
ordering of a path list, or any command token changes the encoding (and
hence, up to hash collision, the fingerprint). -/
theorem C7_fingerprint_injective_encoding (blStr : String → String)
    (v1 : Bool) (pwd1 pwd2 : String) (i1 o1 c1 i2 o2 c2 : List String) :
    args_hash blStr pwd1 ⟨i1, o1, v1, c1⟩ =
      blStr (encodeInvocation pwd1 i1 o1 c1) ∧
    (encodeInvocation pwd1 i1 o1 c1 = encodeInvocation pwd2 i2 o2 c2 ↔
      (pwd1 = pwd2 ∧ i1 = i2 ∧ o1 = o2 ∧ c1 = c2)) :=
  ⟨rfl, encodeInvocation_inj pwd1 pwd2 i1 o1 c1 i2 o2 c2⟩

/-- C9: the `doesnotexist` sentinel is distinct from every possible content
hash: for every byte content, the hex-encoded 256-bit digest the hasher
returns for an existing file is never the sentinel string (a 64-character
hex digest cannot equal the 12-character sentinel). -/
theorem C9_sentinel_distinct (bl : List Nat → List Nat)
    (hlen : ∀ bs, (bl bs).length = 32) (fs : FS) (p : String)
    (content : List Nat) (hc : fs p = .content content) :
    hash_file bl fs p (some doesnotexist) = .ok (hexEncode (bl content)) ∧
    hexEncode (bl content) ≠ doesnotexist := by
  constructor
  · simp only [hash_file, hc]
  · exact hexEncode_ne_sentinel bl hlen content

/-- C9 witness: a concrete readable file hashes to a 64-character digest,
which is not the sentinel. -/
theorem C9_sentinel_distinct_witness :
    hash_file (fun _ => List.replicate 32 0) (fun _ => .content [7]) "a"
      (some doesnotexist) = .ok (hexEncode (List.replicate 32 0)) ∧
    hexEncode (List.replicate 32 0) ≠ doesnotexist :=
  C9_sentinel_distinct (fun _ => List.replicate 32 0) (fun bs => by simp)
    (fun _ => .content [7]) "a" [7] rfl

/-- C4: when the wrapped command terminates with a nonzero or abnormal
status, the tool exits with the child's exit code (or 1 when the code is
indeterminate, e.g. after a signal) and performs no cache save, so the
cache directory — including any previously stored entry for this
fingerprint — is left unchanged. -/
theorem C4_failed_run_saves_nothing (w : World) (d : String)
    (po : Option Hashes) (ih : List (String × String)) (st : ChildStatus)
    (ser : Hashes → String)
    (hcmd : w.args.command ≠ []) (hdir : w.cacheDir = some d)
    (hload : load_previous_run w
      (cache_path d (args_hash w.blStr w.pwd w.args)) = .ok po)
    (hih : collectHashes w.blBytes w.fs w.args.inputs = .ok ih)
    (hrun : needs_to_run w.blBytes w.fs w.args ih po = some true)
    (hchild : w.child = some st) (hfail : statusSuccess st = false) :
    runMain w = (.exitedWith ((statusCode st).getD 1), none) ∧
    finalCacheFs w ser = w.cacheFs := by
  have hmain : runMain w = (.exitedWith ((statusCode st).getD 1), none) := by
    simp only [runMain, if_neg hcmd, hdir, hload, hih, hrun, hchild, hfail]
    simp
  refine ⟨hmain, ?_⟩
  unfold finalCacheFs
  rw [hmain]

/-- C4 witness: a concrete world whose child exits with code 3; the tool
result is `exitedWith 3` and the cache directory is untouched. -/
theorem C4_failed_run_saves_nothing_witness :
    runMain ⟨⟨[], [], false, ["false"]⟩, "", some "c", (fun _ => []),
        (fun _ => "h"), (fun _ => .notFound), (fun _ => .notFound),
        (fun _ => .absent), (fun _ => none), some (.exited 3), true⟩ =
      (.exitedWith 3, none) ∧
    finalCacheFs ⟨⟨[], [], false, ["false"]⟩, "", some "c", (fun _ => []),
        (fun _ => "h"), (fun _ => .notFound), (fun _ => .notFound),
        (fun _ => .absent), (fun _ => none), some (.exited 3), true⟩
      (fun _ => "") =
      (⟨⟨[], [], false, ["false"]⟩, "", some "c", (fun _ => []),
        (fun _ => "h"), (fun _ => .notFound), (fun _ => .notFound),
        (fun _ => .absent), (fun _ => none),
        some (.exited 3), true⟩ : World).cacheFs :=
  C4_failed_run_saves_nothing
    ⟨⟨[], [], false, ["false"]⟩, "", some "c", (fun _ => []),
      (fun _ => "h"), (fun _ => .notFound), (fun _ => .notFound),
      (fun _ => .absent), (fun _ => none), some (.exited 3), true⟩
    "c" none [] (.exited 3) (fun _ => "") (by decide) rfl rfl rfl rfl rfl rfl

/-- C6: with empty declared input and output lists the decision engine
returns "must run" exactly when no previous entry exists
(`some po.isNone`); and once a parseable cache entry exists for the
fingerprint, the run is skipped, the cache is left unchanged, and every
iterated re-invocation under identical conditions skips as well — the
command never runs again. -/
theorem C6_empty_lists_skip (bl : List Nat → List Nat) (fs : FS) (v : Bool)
    (cmd : List String) (ih : List (String × String)) (po : Option Hashes)
    (w : World) (d s : String) (prev : Hashes) (ser : Hashes → String)
    (hin : w.args.inputs = []) (hout : w.args.outputs = [])
    (hcmd : w.args.command ≠ []) (hdir : w.cacheDir = some d)
    (hcache : w.cacheFs (cache_path d (args_hash w.blStr w.pwd w.args)) =
      .present s)
    (hparse : w.parse s = some prev) :
    needs_to_run bl fs ⟨[], [], v, cmd⟩ ih po = some po.isNone ∧
    runMain w = (.skipped, none) ∧
    ∀ n, runMain ((fun x => nextWorld x ser)^[n] w) = (.skipped, none) := by
  have hload : load_previous_run w
      (cache_path d (args_hash w.blStr w.pwd w.args)) = .ok (some prev) := by
    simp only [load_previous_run, hcache, hparse]
  have hih : collectHashes w.blBytes w.fs w.args.inputs = .ok [] := by
    rw [hin]; rfl
  have hrun : needs_to_run w.blBytes w.fs w.args [] (some prev) =
      some false := by
    simp only [needs_to_run, hin, hout, inputsLoop, outputsLoop]
  have hmain : runMain w = (.skipped, none) := by
    simp only [runMain, if_neg hcmd, hdir, hload, hih, hrun]
  have hnext : nextWorld w ser = w := by
    unfold nextWorld finalCacheFs
    rw [hmain]
  refine ⟨?_, hmain, ?_⟩
  · cases po with
    | none => simp [needs_to_run]
    | some prev2 => simp [needs_to_run, inputsLoop, outputsLoop]
  · intro n
    rw [Function.iterate_fixed hnext n]
    exact hmain

/-- C6 witness: a concrete empty-lists invocation with an existing
parseable entry skips, and still skips after two iterated re-invocations;
with no previous entry the engine says "must run". -/
theorem C6_empty_lists_skip_witness :
    needs_to_run (fun _ => []) (fun _ => .notFound) ⟨[], [], false, ["true"]⟩
      [] none = some true ∧
    runMain ⟨⟨[], [], false, ["true"]⟩, "", some "c", (fun _ => []),
      (fun _ => "h"), (fun _ => .notFound), (fun _ => .notFound),
      (fun _ => .present "j"), (fun _ => some ⟨[], []⟩),
      some (.exited 0), true⟩ = (.skipped, none) ∧
    runMain ((fun x => nextWorld x (fun _ => ""))^[2]
      ⟨⟨[], [], false, ["true"]⟩, "", some "c", (fun _ => []),
        (fun _ => "h"), (fun _ => .notFound), (fun _ => .notFound),
        (fun _ => .present "j"), (fun _ => some ⟨[], []⟩),
        some (.exited 0), true⟩) = (.skipped, none) := by
  have h := C6_empty_lists_skip (fun _ => []) (fun _ => .notFound) false
    ["true"] [] none
    ⟨⟨[], [], false, ["true"]⟩, "", some "c", (fun _ => []),
      (fun _ => "h"), (fun _ => .notFound), (fun _ => .notFound),
      (fun _ => .present "j"), (fun _ => some ⟨[], []⟩), some (.exited 0), true⟩
    "c" "j" ⟨[], []⟩ (fun _ => "") rfl rfl (by decide) rfl rfl rfl
  exact ⟨h.1, h.2.1, h.2.2 2⟩

/-- C8: every snapshot persisted after a successful run has an input map
whose keys are exactly the declared input paths (in order) and an output
map whose keys are exactly the declared output paths; the input states are
the ones collected from the pre-run filesystem (before the command ran)
and the output states are collected from the post-run filesystem (after it
succeeded). -/
theorem C8_snapshot_keys (w : World) (e : Hashes)
    (h : runMain w = (.ranAndSaved, some e)) :
    e.inputs.map Prod.fst = w.args.inputs ∧
    e.outputs.map Prod.fst = w.args.outputs ∧
    collectHashes w.blBytes w.fs w.args.inputs = .ok e.inputs ∧
    collectHashes w.blBytes w.fsAfter w.args.outputs = .ok e.outputs := by
  by_cases hcmd : w.args.command = []
  · rw [runMain, if_pos hcmd] at h
    simp at h
  · rw [runMain, if_neg hcmd] at h
    cases hdir : w.cacheDir with
    | none => simp only [hdir] at h; simp at h
    | some d =>
        simp only [hdir] at h
        cases hload : load_previous_run w
            (cache_path d (args_hash w.blStr w.pwd w.args)) with
        | error e2 => simp only [hload] at h; simp at h
        | ok po =>
            simp only [hload] at h
            cases hih : collectHashes w.blBytes w.fs w.args.inputs with
            | error e2 => simp only [hih] at h; simp at h
            | ok ih =>
                simp only [hih] at h
                cases hrun : needs_to_run w.blBytes w.fs w.args ih po with
                | none => simp only [hrun] at h; simp at h
                | some b =>
                    cases b
                    · simp only [hrun] at h; simp at h
                    · simp only [hrun] at h
                      cases hchild : w.child with
                      | none => simp only [hchild] at h; simp at h
                      | some st =>
                          simp only [hchild] at h
                          by_cases hst : statusSuccess st = true
                          · simp only [hst, if_pos] at h
                            cases hoh : collectHashes w.blBytes w.fsAfter
                                w.args.outputs with
                            | error e2 => simp only [hoh] at h; simp at h
                            | ok oh =>
                                simp only [hoh] at h
                                by_cases hw : w.cacheWritable = true
                                case neg =>
                                  rw [if_neg hw] at h
                                  simp at h
                                rw [if_pos hw] at h
                                have h2 := congrArg Prod.snd h
                                simp only at h2
                                obtain rfl := Option.some.inj h2
                                refine ⟨?_, ?_, ?_, ?_⟩
                                · exact collectHashes_keys _ _ _ _ hih
                                · exact collectHashes_keys _ _ _ _ hoh
                                · rfl
                                · rfl
                          · rw [if_neg hst] at h
                            simp at h

/-- C8 witness: a concrete successful run whose saved snapshot carries
exactly the declared input key `"a"` and output key `"b"`, with the input
hashed before and the output after the run. -/
theorem C8_snapshot_keys_witness :
    ([("a", "05")] : List (String × String)).map Prod.fst = ["a"] ∧
    ([("b", "05")] : List (String × String)).map Prod.fst = ["b"] ∧
    collectHashes (fun _ => [5])
      (fun p => if p = "a" then .content [1] else .notFound) ["a"] =
      .ok [("a", "05")] ∧
    collectHashes (fun _ => [5]) (fun _ => .content [2]) ["b"] =
      .ok [("b", "05")] :=
  C8_snapshot_keys
    ⟨⟨["a"], ["b"], false, ["cp"]⟩, "", some "c", (fun _ => [5]),
      (fun _ => "h"), (fun p => if p = "a" then .content [1] else .notFound),
      (fun _ => .content [2]), (fun _ => .absent), (fun _ => none),
      some (.exited 0), true⟩
    ⟨[("a", "05")], [("b", "05")]⟩ (by decide)

/-- C10: when a declared input path fails to open or read with an error
other than not-found, the tool aborts with a fatal error before the
rerun-vs-skip decision: the result is `fatal` (not `skipped`, not a child
execution) and no cache entry is written, whatever the stored snapshot
contains. -/
theorem C10_input_io_error_fatal (w : World) (d : String)
    (hcmd : w.args.command ≠ []) (hdir : w.cacheDir = some d)
    (hload : w.cacheFs (cache_path d (args_hash w.blStr w.pwd w.args)) ≠
      .unreadable)
    (hfail : ∃ p ∈ w.args.inputs, ioFailure (w.fs p) = true) :
    ∃ msg, runMain w = (.fatal msg, none) := by
  have hload2 : ∃ po, load_previous_run w
      (cache_path d (args_hash w.blStr w.pwd w.args)) = .ok po := by
    unfold load_previous_run
    cases hc : w.cacheFs (cache_path d (args_hash w.blStr w.pwd w.args)) with
    | absent => exact ⟨none, rfl⟩
    | unreadable => exact absurd hc hload
    | present s => exact ⟨w.parse s, rfl⟩
  obtain ⟨po, hpo⟩ := hload2
  cases hch : collectHashes w.blBytes w.fs w.args.inputs with
  | error e =>
      refine ⟨e, ?_⟩
      simp only [runMain, if_neg hcmd, hdir, hpo, hch]
  | ok m =>
      exact absurd hch (collectHashes_not_ok w.blBytes w.fs w.args.inputs
        hfail m)

/-- C10 witness: a concrete world whose only declared input fails with a
permission-style open error; the run ends fatally with nothing saved. -/
theorem C10_input_io_error_fatal_witness :
    ∃ msg, runMain ⟨⟨["bad"], [], false, ["x"]⟩, "", some "c",
      (fun _ => []), (fun _ => "h"), (fun _ => .openFail),
      (fun _ => .notFound), (fun _ => .absent), (fun _ => none), none, true⟩ =
      (.fatal msg, none) :=
  C10_input_io_error_fatal
    ⟨⟨["bad"], [], false, ["x"]⟩, "", some "c", (fun _ => []),
      (fun _ => "h"), (fun _ => .openFail), (fun _ => .notFound),
      (fun _ => .absent), (fun _ => none), none, true⟩
    "c" (by decide) rfl (by decide) (by decide)
